import Mathlib

/-!
Verification of the `resp` crate: a serde-style encoder and decoder for the
RESP (REdis Serialization Protocol) wire format.

The encoder is embedded from `src/src/ser.rs`, the error taxonomy from
`src/src/error.rs`.  The decoder module `de` is re-exported by
`src/src/lib.rs` but its source is not part of the repository snapshot, so it
is modelled from the specification (section 4.2 of spec.md).

Bytes are modelled as natural numbers (the relevant byte constants appear as
literals: 42 is the asterisk, 43 the plus sign, 36 the dollar sign, 58 the
colon, 45 the minus sign, 13 carriage return, 10 line feed, 48 the digit 0).
Buffers are lists of bytes.
-/

namespace Resp

set_option maxHeartbeats 2000000

/-! ## Decimal numerals

Rust's `v.to_string()` on integers produces the usual decimal ASCII digits,
no leading zeros, a leading minus sign for negative values.  The functions
below realize that byte sequence.  `natDigitsRevFuel` is fuel-indexed so that
it is structurally recursive (the fuel is always at least the number, which
dominates the number of divisions by ten). -/

/-- Decimal digits of a positive number, least significant first; fuel-indexed. -/
def natDigitsRevFuel : Nat → Nat → List Nat
  | 0, _ => []
  | _ + 1, 0 => []
  | fuel + 1, n + 1 => (48 + (n + 1) % 10) :: natDigitsRevFuel fuel ((n + 1) / 10)

/-- Decimal ASCII bytes of a natural number, as Rust's `u64::to_string`. -/
def natToDecimal (n : Nat) : List Nat :=
  if n = 0 then [48] else (natDigitsRevFuel n n).reverse

/-- Decimal ASCII bytes of an integer, as Rust's `i64::to_string`:
a minus sign (byte 45) followed by the digits of the absolute value when
negative. -/
def intToDecimal (n : Int) : List Nat :=
  if n < 0 then 45 :: natToDecimal n.natAbs else natToDecimal n.toNat

/-! ## Wire frames emitted by the encoder (src/src/ser.rs) -/

/-- Array frame header: an asterisk, the decimal count, CRLF
(`serialize_seq` / `serialize_map` success path, ser.rs lines 183-189 and
219-225). -/
def arrayHeader (n : Nat) : List Nat :=
  42 :: (natToDecimal n ++ [13, 10])

/-- Integer frame for a signed value: a colon, decimal digits, CRLF
(`serialize_i64`, ser.rs lines 60-65). -/
def intFrame (n : Int) : List Nat :=
  58 :: (intToDecimal n ++ [13, 10])

/-- Integer frame for an unsigned value (`serialize_u64`, ser.rs lines
77-82). -/
def natFrame (n : Nat) : List Nat :=
  58 :: (natToDecimal n ++ [13, 10])

/-- Bulk string frame: a dollar sign, the decimal byte length, CRLF, the raw
payload, CRLF (`serialize_bytes`, ser.rs lines 107-114). -/
def bulkFrame (b : List Nat) : List Nat :=
  36 :: (natToDecimal b.length ++ [13, 10] ++ b ++ [13, 10])

/-- Null bulk string frame, the bytes of `b"$-1\r\n"` (`serialize_unit`,
ser.rs lines 132-135). -/
def nullBulk : List Nat := [36, 45, 49, 13, 10]

/-- Text frame (`serialize_str`, ser.rs lines 96-105): a bulk string when the
bytes contain a carriage return or a line feed, otherwise a simple string --
a plus sign, the raw bytes, CRLF. -/
def strFrame (s : List Nat) : List Nat :=
  if 13 ∈ s ∨ 10 ∈ s then bulkFrame s else 43 :: (s ++ [13, 10])

/-! ## Error taxonomy (src/src/error.rs) -/

/-- Embeds `enum Error` from src/src/error.rs. -/
inductive Error where
  /-- Error that only contains an error message. -/
  | Msg (msg : String)
  /-- Array length must be known to be used as prefix. -/
  | LenNotKnown
  /-- Write error. -/
  | Io
  /-- Write buffer cannot be represented by a valid UTF-8 string. -/
  | Utf8

/-- Embeds `Error::as_str` (error.rs lines 33-39): the match has a single
wildcard arm. -/
def Error.as_str : Error → String
  | _ => "other error"

/-- Embeds the `fmt::Display` implementation for `Error` (error.rs lines
41-45), which writes `as_str` of the error. -/
def Error.display (e : Error) : String := e.as_str

/-! ## The value model

The serde data model shapes handled by the encoder, as a closed tagged union
(spec.md section 3 and section 9: the source's generic visitor dispatch is
reimplemented as an exhaustive match over this union).  Floating-point
values are excluded: `serialize_f64` forwards the native numeric-to-text
formatting of the float, which has no shallow embedding.  Characters are
carried as the UTF-8 bytes of their one-character string form, which is
exactly what `serialize_char` hands to the text path. -/

/-- A value of the serde data model, restricted to the shapes the crate
handles exactly.  Text, byte strings and static names are byte lists. -/
inductive Value where
  /-- Boolean (`serialize_bool`). -/
  | vBool (b : Bool)
  /-- Signed integer, the common `serialize_i64` path. -/
  | vI64 (n : Int)
  /-- Unsigned integer, the common `serialize_u64` path. -/
  | vU64 (n : Nat)
  /-- UTF-8 text (`serialize_str`), as its bytes. -/
  | vStr (s : List Nat)
  /-- Raw byte sequence (`serialize_bytes`). -/
  | vBytes (b : List Nat)
  /-- Single character (`serialize_char`), carried as the UTF-8 bytes of its
  one-character string form. -/
  | vChar (c : List Nat)
  /-- Absent optional (`serialize_none`). -/
  | vNone
  /-- Present optional (`serialize_some`). -/
  | vSome (v : Value)
  /-- Unit value (`serialize_unit`). -/
  | vUnit
  /-- Unit struct (`serialize_unit_struct`). -/
  | vUnitStruct
  /-- Unit variant of an enum (`serialize_unit_variant`). -/
  | vUnitVariant (variant : List Nat)
  /-- Newtype struct (`serialize_newtype_struct`). -/
  | vNewtypeStruct (v : Value)
  /-- Newtype variant of an enum (`serialize_newtype_variant`). -/
  | vNewtypeVariant (variant : List Nat) (v : Value)
  /-- Homogeneous sequence (`serialize_seq` with the elements). -/
  | vSeq (l : List Value)
  /-- Tuple or tuple struct (`serialize_tuple` / `serialize_tuple_struct`). -/
  | vTuple (l : List Value)
  /-- Tuple variant of an enum (`serialize_tuple_variant`). -/
  | vTupleVariant (variant : List Nat) (l : List Value)
  /-- Map (`serialize_map` with the entries, written by `serialize_entry`). -/
  | vMap (entries : List (Value × Value))
  /-- Record with named fields (`serialize_struct`). -/
  | vStruct (fields : List (List Nat × Value))
  /-- Struct variant of an enum (`serialize_struct_variant`). -/
  | vStructVariant (variant : List Nat) (fields : List (List Nat × Value))

mutual

/-- Bytes appended by `value.serialize(&mut serializer)` for the `Serializer`
of src/src/ser.rs, one match arm per `serialize_*` method.  The literal
`[42, 50, 13, 10]` is `b"*2\r\n"` as written by the variant and field
paths. -/
def encodeV : Value → List Nat
  | .vBool b => intFrame (if b then 1 else 0)
  | .vI64 n => intFrame n
  | .vU64 n => natFrame n
  | .vStr s => strFrame s
  | .vBytes b => bulkFrame b
  | .vChar c => strFrame c
  | .vNone => arrayHeader 0
  | .vSome v => arrayHeader 1 ++ encodeV v
  | .vUnit => nullBulk
  | .vUnitStruct => nullBulk
  | .vUnitVariant variant => strFrame variant
  | .vNewtypeStruct v => encodeV v
  | .vNewtypeVariant variant v => [42, 50, 13, 10] ++ strFrame variant ++ encodeV v
  | .vSeq l => arrayHeader l.length ++ encodeList l
  | .vTuple l => arrayHeader l.length ++ encodeList l
  | .vTupleVariant variant l =>
      [42, 50, 13, 10] ++ strFrame variant ++ (arrayHeader l.length ++ encodeList l)
  | .vMap entries => arrayHeader entries.length ++ encodeEntries entries
  | .vStruct fields => arrayHeader fields.length ++ encodeFields fields
  | .vStructVariant variant fields =>
      [42, 50, 13, 10] ++ strFrame variant ++ (arrayHeader fields.length ++ encodeFields fields)

/-- Bytes appended for the elements of a sequence or tuple
(`SerializeSeq::serialize_element` in declaration order). -/
def encodeList : List Value → List Nat
  | [] => []
  | v :: tl => encodeV v ++ encodeList tl

/-- Bytes appended for the entries of a map: each entry is written by
`SerializeMap::serialize_entry` (ser.rs lines 338-348) as `b"*2\r\n"`, the
key, the value. -/
def encodeEntries : List (Value × Value) → List Nat
  | [] => []
  | (k, v) :: tl => [42, 50, 13, 10] ++ encodeV k ++ encodeV v ++ encodeEntries tl

/-- Bytes appended for the fields of a record or struct variant: each field
is written by `SerializeStruct::serialize_field` (ser.rs lines 359-367) as
`b"*2\r\n"`, the field name via `serialize_str`, the field value. -/
def encodeFields : List (List Nat × Value) → List Nat
  | [] => []
  | (name, v) :: tl => [42, 50, 13, 10] ++ strFrame name ++ encodeV v ++ encodeFields tl

end

/-! ## Individual serializer methods with explicit buffer state

The methods below mutate `self.output`; they are embedded as functions from
the buffer before the call to the pair of the call's result and the buffer
after the call, so that statements about the buffer being unchanged on an
error are expressible. -/

/-- Embeds `serialize_seq` (ser.rs lines 183-189): an unknown length fails
with `LenNotKnown` before any write; a known length appends the array
header. -/
def serialize_seq (output : List Nat) (len : Option Nat) :
    Except Error Unit × List Nat :=
  match len with
  | none => (Except.error Error.LenNotKnown, output)
  | some l => (Except.ok (), output ++ arrayHeader l)

/-- Embeds `serialize_map` (ser.rs lines 219-225): same body as
`serialize_seq`. -/
def serialize_map (output : List Nat) (len : Option Nat) :
    Except Error Unit × List Nat :=
  match len with
  | none => (Except.error Error.LenNotKnown, output)
  | some l => (Except.ok (), output ++ arrayHeader l)

/-- Embeds `SerializeMap::serialize_key` (ser.rs lines 324-329): returns Ok
and writes nothing. -/
def serialize_key (output : List Nat) (_key : Value) :
    Except Error Unit × List Nat :=
  (Except.ok (), output)

/-- Embeds `SerializeMap::serialize_value` (ser.rs lines 331-336): returns Ok
and writes nothing. -/
def serialize_value (output : List Nat) (_value : Value) :
    Except Error Unit × List Nat :=
  (Except.ok (), output)

/-- Embeds `SerializeMap::serialize_entry` (ser.rs lines 338-348): writes
`b"*2\r\n"`, then the key, then the value. -/
def serialize_entry (output : List Nat) (key value : Value) :
    Except Error Unit × List Nat :=
  (Except.ok (), output ++ [42, 50, 13, 10] ++ encodeV key ++ encodeV value)

/-! ## UTF-8 validation

`to_string` ends with `String::from_utf8(serializer.output)?`.  The standard
UTF-8 well-formedness check over bytes, as in the Unicode table: ASCII,
two-byte leads C2-DF, three-byte leads E0/E1-EC/ED/EE-EF with their
continuation ranges (ED excludes surrogates), four-byte leads F0/F1-F3/F4
with theirs. -/

/-- Continuation byte test: bytes 128-191. -/
def isCont (b : Nat) : Bool := 128 ≤ b && b ≤ 191

/-- Well-formedness of a byte list as UTF-8, as checked by Rust's
`String::from_utf8`. -/
def validUtf8 : List Nat → Bool
  | [] => true
  | b :: rest =>
    if b ≤ 127 then validUtf8 rest
    else if 194 ≤ b && b ≤ 223 then
      match rest with
      | c1 :: r => isCont c1 && validUtf8 r
      | [] => false
    else if b = 224 then
      match rest with
      | c1 :: c2 :: r => (160 ≤ c1 && c1 ≤ 191) && isCont c2 && validUtf8 r
      | _ => false
    else if (225 ≤ b && b ≤ 236) || b = 238 || b = 239 then
      match rest with
      | c1 :: c2 :: r => isCont c1 && isCont c2 && validUtf8 r
      | _ => false
    else if b = 237 then
      match rest with
      | c1 :: c2 :: r => (128 ≤ c1 && c1 ≤ 159) && isCont c2 && validUtf8 r
      | _ => false
    else if b = 240 then
      match rest with
      | c1 :: c2 :: c3 :: r => (144 ≤ c1 && c1 ≤ 191) && isCont c2 && isCont c3 && validUtf8 r
      | _ => false
    else if 241 ≤ b && b ≤ 243 then
      match rest with
      | c1 :: c2 :: c3 :: r => isCont c1 && isCont c2 && isCont c3 && validUtf8 r
      | _ => false
    else if b = 244 then
      match rest with
      | c1 :: c2 :: c3 :: r => (128 ≤ c1 && c1 ≤ 143) && isCont c2 && isCont c3 && validUtf8 r
      | _ => false
    else false

/-- Byte length of one UTF-8 encoded character, read off its lead byte. -/
def charLen (b : Nat) : Nat :=
  if b ≤ 127 then 1 else if b ≤ 223 then 2 else if b ≤ 239 then 3 else 4

/-- The byte list is the UTF-8 encoding of exactly one character: valid
UTF-8 whose total length is the length of its first character. -/
def isOneChar : List Nat → Bool
  | [] => false
  | b :: rest => validUtf8 (b :: rest) && charLen b = rest.length + 1

/-- Embeds `pub fn to_string` (ser.rs lines 15-22): serialize into a fresh
buffer, then validate the whole buffer as UTF-8; an invalid buffer turns into
`Error::Utf8` via the `From` impl in error.rs lines 59-63. -/
def to_string (value : Value) : Except Error (List Nat) :=
  let output := encodeV value
  if validUtf8 output then Except.ok output else Except.error Error.Utf8

/-! ## The decoder

Modelled from the spec: the module `de` (re-exported as `Deserializer` and
`from_str` by src/src/lib.rs) is not part of the repository snapshot, so the
decoder below follows spec.md section 4.2 word by word: decoding is driven by
the caller's requested shape; scalars read an Integer frame; text and bytes
read either string frame, text additionally validated as UTF-8; a character
request reads a text frame holding exactly one character; optionals
read an array of count zero or one; unit expects the null bulk string;
sequences, tuples, maps and records read an array header and then that many
elements (two-element sub-arrays for map entries and record fields); unit
variants read a simple string matched against the known variant names and
the other variant kinds read a two-element array of name and payload. -/

/-- Modelled from the spec: the requested target shape driving the decoder
(spec.md sections 3 and 4.2).  The four variant-kind constructors only occur
inside the variant list of an enum shape and record which serde variant
flavour the payload belongs to. -/
inductive Shape where
  /-- Boolean scalar request. -/
  | sBool
  /-- Signed 64-bit integer request. -/
  | sI64
  /-- Unsigned 64-bit integer request. -/
  | sU64
  /-- Text request. -/
  | sStr
  /-- Raw byte sequence request. -/
  | sBytes
  /-- Single character request. -/
  | sChar
  /-- Unit request. -/
  | sUnit
  /-- Unit struct request. -/
  | sUnitStruct
  /-- Optional request with the inner shape. -/
  | sOption (s : Shape)
  /-- Newtype struct request, an insignificant wrapper. -/
  | sNewtypeStruct (s : Shape)
  /-- Homogeneous sequence request with the element shape. -/
  | sSeq (e : Shape)
  /-- Tuple request with the element shapes. -/
  | sTuple (es : List Shape)
  /-- Map request with the key and value shapes. -/
  | sMap (ks ws : Shape)
  /-- Record request with the field value shapes in declaration order. -/
  | sStruct (fs : List Shape)
  /-- Enum request with the known variants, each a name and a kind. -/
  | sEnum (variants : List (List Nat × Shape))
  /-- Kind of a unit variant. -/
  | sVarUnit
  /-- Kind of a newtype variant with the payload shape. -/
  | sVarNewtype (s : Shape)
  /-- Kind of a tuple variant with the payload element shapes. -/
  | sVarTuple (es : List Shape)
  /-- Kind of a struct variant with the payload field shapes. -/
  | sVarStruct (fs : List Shape)

/-- Modelled from the spec: the decoding failure taxonomy of spec.md
sections 4.2 and 7 (unexpected end of input, bad frame tag, malformed
integer digits, declared length exceeding the input, malformed frames,
malformed optionals, integer overflow, unknown variant names, arity
mismatches, invalid UTF-8 in text, and exhaustion of the recursion fuel of
this embedding). -/
inductive DeError where
  /-- Unexpected end of input. -/
  | eof
  /-- Frame tag byte is not the expected one. -/
  | badTag
  /-- Malformed decimal digits. -/
  | badInt
  /-- Declared length exceeds the remaining input. -/
  | badLen
  /-- Malformed frame. -/
  | badFrame
  /-- Optional array with a count other than zero or one. -/
  | badOption
  /-- Integer outside the target width. -/
  | overflow
  /-- Variant name not among the known variants. -/
  | unknownVariant
  /-- Array count does not match the requested fixed arity. -/
  | arityMismatch
  /-- Requested shape cannot occur here. -/
  | badShape
  /-- Text bytes are not valid UTF-8. -/
  | utf8
  /-- Recursion fuel exhausted (embedding artifact, never on encoder
  output). -/
  | outOfFuel

/-- Split the input at the first CRLF: the content before it and the rest
after it. -/
def readLine : List Nat → Option (List Nat × List Nat)
  | [] => none
  | [_] => none
  | b1 :: b2 :: rest =>
    if b1 = 13 ∧ b2 = 10 then some ([], rest)
    else
      match readLine (b2 :: rest) with
      | some (l, r) => some (b1 :: l, r)
      | none => none

/-- Decimal digit byte test. -/
def isDigitByte (b : Nat) : Bool := 48 ≤ b && b ≤ 57

/-- Parse a nonempty all-digit byte list as a natural number. -/
def parseNatDigits (l : List Nat) : Option Nat :=
  if l.isEmpty then none
  else if l.all isDigitByte then
    some (l.foldl (fun acc b => acc * 10 + (b - 48)) 0)
  else none

/-- Parse decimal integer bytes: an optional leading minus sign, then
digits. -/
def parseIntBytes : List Nat → Option Int
  | [] => none
  | b :: rest =>
    if b = 45 then
      match parseNatDigits rest with
      | some m => some (-(m : Int))
      | none => none
    else
      match parseNatDigits (b :: rest) with
      | some m => some ((m : Int))
      | none => none

/-- Modelled from the spec: the remainder of a bulk string frame after its
dollar tag: the decimal byte length line, exactly that many payload bytes,
and the closing CRLF. -/
def readBulkTail (input : List Nat) : Except DeError (List Nat × List Nat) :=
  match readLine input with
  | none => Except.error DeError.eof
  | some (lenBytes, rest) =>
    match parseNatDigits lenBytes with
    | none => Except.error DeError.badInt
    | some len =>
      if len ≤ rest.length then
        match rest.drop len with
        | 13 :: 10 :: rest2 => Except.ok (rest.take len, rest2)
        | _ => Except.error DeError.badFrame
      else Except.error DeError.badLen

/-- Modelled from the spec: read one string-carrying frame, accepting both
the simple string and the bulk string form, returning the payload bytes. -/
def readTextFrame : List Nat → Except DeError (List Nat × List Nat)
  | 43 :: rest =>
    match readLine rest with
    | some (content, rest2) => Except.ok (content, rest2)
    | none => Except.error DeError.eof
  | 36 :: rest => readBulkTail rest
  | _ => Except.error DeError.badTag

/-- Modelled from the spec: a text request reads a string frame and
additionally validates the payload as well-formed UTF-8. -/
def readText (input : List Nat) : Except DeError (List Nat × List Nat) :=
  match readTextFrame input with
  | Except.ok (content, rest) =>
    if validUtf8 content then Except.ok (content, rest)
    else Except.error DeError.utf8
  | Except.error e => Except.error e

/-- Modelled from the spec: read an array frame header, the asterisk tag and
the decimal element count line. -/
def readArrayHeader : List Nat → Except DeError (Nat × List Nat)
  | 42 :: rest =>
    match readLine rest with
    | some (lenBytes, rest2) =>
      match parseNatDigits lenBytes with
      | some n => Except.ok (n, rest2)
      | none => Except.error DeError.badInt
    | none => Except.error DeError.eof
  | _ => Except.error DeError.badTag

/-- Modelled from the spec: read an integer frame, the colon tag and the
decimal digits line with an optional sign. -/
def readIntFrame : List Nat → Except DeError (Int × List Nat)
  | 58 :: rest =>
    match readLine rest with
    | some (numBytes, rest2) =>
      match parseIntBytes numBytes with
      | some n => Except.ok (n, rest2)
      | none => Except.error DeError.badInt
    | none => Except.error DeError.eof
  | _ => Except.error DeError.badTag

/-- Look a variant name up among the known variants of an enum shape,
first match wins. -/
def findVariant (name : List Nat) : List (List Nat × Shape) → Option Shape
  | [] => none
  | (n, s) :: tl => if name = n then some s else findVariant name tl

/-- Decode a counted run of elements with the given element decoder. -/
def decodeCount (dec : List Nat → Except DeError (Value × List Nat)) :
    Nat → List Nat → Except DeError (List Value × List Nat)
  | 0, input => Except.ok ([], input)
  | n + 1, input =>
    match dec input with
    | Except.ok (v, rest) =>
      match decodeCount dec n rest with
      | Except.ok (l, rest2) => Except.ok (v :: l, rest2)
      | Except.error e => Except.error e
    | Except.error e => Except.error e

/-- Decode one element per requested shape, in order. -/
def decodeShapes (dec : Shape → List Nat → Except DeError (Value × List Nat)) :
    List Shape → List Nat → Except DeError (List Value × List Nat)
  | [], input => Except.ok ([], input)
  | s :: ss, input =>
    match dec s input with
    | Except.ok (v, rest) =>
      match decodeShapes dec ss rest with
      | Except.ok (l, rest2) => Except.ok (v :: l, rest2)
      | Except.error e => Except.error e
    | Except.error e => Except.error e

/-- Decode a counted run of map entries, each a two-element array of a key
and a value. -/
def decodePairs (decK decW : List Nat → Except DeError (Value × List Nat)) :
    Nat → List Nat → Except DeError (List (Value × Value) × List Nat)
  | 0, input => Except.ok ([], input)
  | n + 1, input =>
    match readArrayHeader input with
    | Except.ok (c, rest) =>
      if c = 2 then
        match decK rest with
        | Except.ok (k, rest2) =>
          match decW rest2 with
          | Except.ok (w, rest3) =>
            match decodePairs decK decW n rest3 with
            | Except.ok (l, rest4) => Except.ok ((k, w) :: l, rest4)
            | Except.error e => Except.error e
          | Except.error e => Except.error e
        | Except.error e => Except.error e
      else Except.error DeError.arityMismatch
    | Except.error e => Except.error e

/-- Decode record fields, each a two-element array of the field name (a text
frame) and the field value at that field's shape. -/
def decodeFieldsAt (dec : Shape → List Nat → Except DeError (Value × List Nat)) :
    List Shape → List Nat → Except DeError (List (List Nat × Value) × List Nat)
  | [], input => Except.ok ([], input)
  | s :: ss, input =>
    match readArrayHeader input with
    | Except.ok (c, rest) =>
      if c = 2 then
        match readText rest with
        | Except.ok (name, rest2) =>
          match dec s rest2 with
          | Except.ok (v, rest3) =>
            match decodeFieldsAt dec ss rest3 with
            | Except.ok (l, rest4) => Except.ok ((name, v) :: l, rest4)
            | Except.error e => Except.error e
          | Except.error e => Except.error e
        | Except.error e => Except.error e
      else Except.error DeError.arityMismatch
    | Except.error e => Except.error e

/-- Modelled from the spec: the shape-driven frame decoder of spec.md
section 4.2, fuel-indexed so that it is structurally recursive (the fuel is
an embedding artifact; every frame consumes input, so an input-sized fuel
never runs out on well-formed frames). -/
def decodeV : Nat → Shape → List Nat → Except DeError (Value × List Nat)
  | 0, _, _ => Except.error DeError.outOfFuel
  | fuel + 1, shape, input =>
    match shape with
    | .sBool =>
      match readIntFrame input with
      | Except.ok (n, rest) =>
        if n = 0 then Except.ok (.vBool false, rest)
        else if n = 1 then Except.ok (.vBool true, rest)
        else Except.error DeError.badInt
      | Except.error e => Except.error e
    | .sI64 =>
      match readIntFrame input with
      | Except.ok (n, rest) =>
        if -(2 ^ 63) ≤ n ∧ n < 2 ^ 63 then Except.ok (.vI64 n, rest)
        else Except.error DeError.overflow
      | Except.error e => Except.error e
    | .sU64 =>
      match readIntFrame input with
      | Except.ok (n, rest) =>
        if 0 ≤ n ∧ n < 2 ^ 64 then Except.ok (.vU64 n.toNat, rest)
        else Except.error DeError.overflow
      | Except.error e => Except.error e
    | .sStr =>
      match readText input with
      | Except.ok (s, rest) => Except.ok (.vStr s, rest)
      | Except.error e => Except.error e
    | .sBytes =>
      match readTextFrame input with
      | Except.ok (b, rest) => Except.ok (.vBytes b, rest)
      | Except.error e => Except.error e
    | .sChar =>
      match readText input with
      | Except.ok (c, rest) =>
        if isOneChar c then Except.ok (.vChar c, rest)
        else Except.error DeError.badFrame
      | Except.error e => Except.error e
    | .sUnit =>
      match input with
      | 36 :: 45 :: 49 :: 13 :: 10 :: rest => Except.ok (.vUnit, rest)
      | _ => Except.error DeError.badFrame
    | .sUnitStruct =>
      match input with
      | 36 :: 45 :: 49 :: 13 :: 10 :: rest => Except.ok (.vUnitStruct, rest)
      | _ => Except.error DeError.badFrame
    | .sOption s =>
      match readArrayHeader input with
      | Except.ok (c, rest) =>
        if c = 0 then Except.ok (.vNone, rest)
        else if c = 1 then
          match decodeV fuel s rest with
          | Except.ok (v, rest2) => Except.ok (.vSome v, rest2)
          | Except.error e => Except.error e
        else Except.error DeError.badOption
      | Except.error e => Except.error e
    | .sNewtypeStruct s =>
      match decodeV fuel s input with
      | Except.ok (v, rest) => Except.ok (.vNewtypeStruct v, rest)
      | Except.error e => Except.error e
    | .sSeq e =>
      match readArrayHeader input with
      | Except.ok (n, rest) =>
        match decodeCount (fun inp => decodeV fuel e inp) n rest with
        | Except.ok (l, rest2) => Except.ok (.vSeq l, rest2)
        | Except.error err => Except.error err
      | Except.error err => Except.error err
    | .sTuple es =>
      match readArrayHeader input with
      | Except.ok (n, rest) =>
        if n = es.length then
          match decodeShapes (fun sh inp => decodeV fuel sh inp) es rest with
          | Except.ok (l, rest2) => Except.ok (.vTuple l, rest2)
          | Except.error err => Except.error err
        else Except.error DeError.arityMismatch
      | Except.error err => Except.error err
    | .sMap ks ws =>
      match readArrayHeader input with
      | Except.ok (n, rest) =>
        match decodePairs (fun inp => decodeV fuel ks inp)
            (fun inp => decodeV fuel ws inp) n rest with
        | Except.ok (l, rest2) => Except.ok (.vMap l, rest2)
        | Except.error err => Except.error err
      | Except.error err => Except.error err
    | .sStruct fs =>
      match readArrayHeader input with
      | Except.ok (n, rest) =>
        if n = fs.length then
          match decodeFieldsAt (fun sh inp => decodeV fuel sh inp) fs rest with
          | Except.ok (l, rest2) => Except.ok (.vStruct l, rest2)
          | Except.error err => Except.error err
        else Except.error DeError.arityMismatch
      | Except.error err => Except.error err
    | .sEnum variants =>
      if input.head? = some 42 then
        match readArrayHeader input with
        | Except.ok (c, rest) =>
          if c = 2 then
            match readText rest with
            | Except.ok (name, rest2) =>
              match findVariant name variants with
              | some (.sVarNewtype s) =>
                match decodeV fuel s rest2 with
                | Except.ok (v, rest3) => Except.ok (.vNewtypeVariant name v, rest3)
                | Except.error err => Except.error err
              | some (.sVarTuple ss) =>
                match decodeV fuel (.sTuple ss) rest2 with
                | Except.ok (.vTuple l, rest3) => Except.ok (.vTupleVariant name l, rest3)
                | Except.ok _ => Except.error DeError.badShape
                | Except.error err => Except.error err
              | some (.sVarStruct fs) =>
                match decodeV fuel (.sStruct fs) rest2 with
                | Except.ok (.vStruct l, rest3) => Except.ok (.vStructVariant name l, rest3)
                | Except.ok _ => Except.error DeError.badShape
                | Except.error err => Except.error err
              | some _ => Except.error DeError.badShape
              | none => Except.error DeError.unknownVariant
            | Except.error err => Except.error err
          else Except.error DeError.arityMismatch
        | Except.error err => Except.error err
      else
        match readText input with
        | Except.ok (name, rest) =>
          match findVariant name variants with
          | some .sVarUnit => Except.ok (.vUnitVariant name, rest)
          | _ => Except.error DeError.unknownVariant
        | Except.error err => Except.error err
    | .sVarUnit => Except.error DeError.badShape
    | .sVarNewtype _ => Except.error DeError.badShape
    | .sVarTuple _ => Except.error DeError.badShape
    | .sVarStruct _ => Except.error DeError.badShape

mutual

/-- Nesting budget of a requested shape: how many decoder recursion levels a
shape can demand beyond the frames present in the input (newtype wrappers
consume a recursion level without consuming input). -/
def shapeNest : Shape → Nat
  | .sOption s => 1 + shapeNest s
  | .sNewtypeStruct s => 1 + shapeNest s
  | .sSeq e => 1 + shapeNest e
  | .sTuple es => 1 + shapeNestList es
  | .sMap ks ws => 1 + shapeNest ks + shapeNest ws
  | .sStruct fs => 1 + shapeNestList fs
  | .sEnum variants => 2 + shapeNestVars variants
  | .sVarNewtype s => 1 + shapeNest s
  | .sVarTuple es => 1 + shapeNestList es
  | .sVarStruct fs => 1 + shapeNestList fs
  | _ => 1

/-- Largest nesting budget among element shapes. -/
def shapeNestList : List Shape → Nat
  | [] => 0
  | s :: tl => max (shapeNest s) (shapeNestList tl)

/-- Largest nesting budget among the variant kinds of an enum shape. -/
def shapeNestVars : List (List Nat × Shape) → Nat
  | [] => 0
  | (_, s) :: tl => max (shapeNest s) (shapeNestVars tl)

end

/-- Modelled from the spec: the top-level decode entry point (the analogue of
`from_str` re-exported by src/src/lib.rs): parse one value of the requested
shape from the start of the given bytes.  The fuel is the input length plus
the requested shape's nesting budget plus one, enough for any value of that
shape the input can hold. -/
def from_str (shape : Shape) (input : List Nat) : Except DeError Value :=
  match decodeV (input.length + shapeNest shape + 1) shape input with
  | Except.ok (v, _) => Except.ok v
  | Except.error e => Except.error e

mutual

/-- A value fits a requested shape, together with the implicit
well-formedness conditions of the Rust value model: integers within the
64-bit target width, text and names valid UTF-8 (Rust strings always are),
raw bytes within byte range, sequence elements and map entries all fitting
one element shape, variant names known to the enum shape with the matching
kind. -/
def conforms : Shape → Value → Bool
  | .sBool, .vBool _ => true
  | .sI64, .vI64 n => decide (-(2 ^ 63) ≤ n) && decide (n < 2 ^ 63)
  | .sU64, .vU64 n => decide (n < 2 ^ 64)
  | .sStr, .vStr s => validUtf8 s
  | .sBytes, .vBytes b => b.all (fun x => decide (x < 256))
  | .sChar, .vChar c => isOneChar c
  | .sOption _, .vNone => true
  | .sOption s, .vSome v => conforms s v
  | .sUnit, .vUnit => true
  | .sUnitStruct, .vUnitStruct => true
  | .sEnum variants, .vUnitVariant name =>
      validUtf8 name &&
        (match findVariant name variants with
         | some .sVarUnit => true
         | _ => false)
  | .sEnum variants, .vNewtypeVariant name v =>
      validUtf8 name &&
        (match findVariant name variants with
         | some (.sVarNewtype s) => conforms s v
         | _ => false)
  | .sEnum variants, .vTupleVariant name l =>
      validUtf8 name &&
        (match findVariant name variants with
         | some (.sVarTuple ss) => conformsList ss l
         | _ => false)
  | .sEnum variants, .vStructVariant name fields =>
      validUtf8 name &&
        (match findVariant name variants with
         | some (.sVarStruct fs) => conformsFields fs fields
         | _ => false)
  | .sNewtypeStruct s, .vNewtypeStruct v => conforms s v
  | .sSeq e, .vSeq l => conformsAll e l
  | .sTuple ss, .vTuple l => conformsList ss l
  | .sMap ks ws, .vMap entries => conformsPairs ks ws entries
  | .sStruct fs, .vStruct fields => conformsFields fs fields
  | _, _ => false

/-- Every element of a sequence fits the one element shape. -/
def conformsAll : Shape → List Value → Bool
  | _, [] => true
  | e, v :: tl => conforms e v && conformsAll e tl

/-- Tuple elements fit their shapes positionally. -/
def conformsList : List Shape → List Value → Bool
  | [], [] => true
  | s :: ss, v :: tl => conforms s v && conformsList ss tl
  | _, _ => false

/-- Map entries fit the key and value shapes. -/
def conformsPairs : Shape → Shape → List (Value × Value) → Bool
  | _, _, [] => true
  | ks, ws, (k, w) :: tl => conforms ks k && conforms ws w && conformsPairs ks ws tl

/-- Record fields have valid UTF-8 names and values fitting their shapes
positionally. -/
def conformsFields : List Shape → List (List Nat × Value) → Bool
  | [], [] => true
  | s :: ss, (name, v) :: tl => validUtf8 name && conforms s v && conformsFields ss tl
  | _, _ => false

end

mutual

/-- Nesting depth of a value: an upper bound on the decoder recursion depth
needed to decode its encoding (compound variants recurse twice, once for the
enum and once for the payload). -/
def vdepth : Value → Nat
  | .vBool _ => 1
  | .vI64 _ => 1
  | .vU64 _ => 1
  | .vStr _ => 1
  | .vBytes _ => 1
  | .vChar _ => 1
  | .vNone => 1
  | .vSome v => 1 + vdepth v
  | .vUnit => 1
  | .vUnitStruct => 1
  | .vUnitVariant _ => 1
  | .vNewtypeStruct v => 1 + vdepth v
  | .vNewtypeVariant _ v => 1 + vdepth v
  | .vSeq l => 1 + vdepthList l
  | .vTuple l => 1 + vdepthList l
  | .vTupleVariant _ l => 2 + vdepthList l
  | .vMap entries => 1 + vdepthPairs entries
  | .vStruct fields => 1 + vdepthFields fields
  | .vStructVariant _ fields => 2 + vdepthFields fields

/-- Largest nesting depth among sequence elements. -/
def vdepthList : List Value → Nat
  | [] => 0
  | v :: tl => max (vdepth v) (vdepthList tl)

/-- Largest nesting depth among map keys and values. -/
def vdepthPairs : List (Value × Value) → Nat
  | [] => 0
  | (k, w) :: tl => max (max (vdepth k) (vdepth w)) (vdepthPairs tl)

/-- Largest nesting depth among record field values. -/
def vdepthFields : List (List Nat × Value) → Nat
  | [] => 0
  | (_, v) :: tl => max (vdepth v) (vdepthFields tl)

end

/-! ## Lemmas about decimal digits -/

theorem natDigitsRevFuel_congr : ∀ (n f1 f2 : Nat), n ≤ f1 → n ≤ f2 →
    natDigitsRevFuel f1 n = natDigitsRevFuel f2 n
  | 0, 0, 0, _, _ => rfl
  | 0, 0, _ + 1, _, _ => rfl
  | 0, _ + 1, 0, _, _ => rfl
  | 0, _ + 1, _ + 1, _, _ => rfl
  | _ + 1, 0, _, h1, _ => absurd h1 (by omega)
  | _ + 1, _ + 1, 0, _, h2 => absurd h2 (by omega)
  | n + 1, f1 + 1, f2 + 1, _, _ => by
      have hq : (n + 1) / 10 < n + 1 := Nat.div_lt_self (Nat.succ_pos n) (by omega)
      simp only [natDigitsRevFuel]
      rw [natDigitsRevFuel_congr ((n + 1) / 10) f1 f2 (by omega) (by omega)]
termination_by n _ _ _ _ => n

theorem natToDecimal_eq (n : Nat) (h : 0 < n) :
    natToDecimal n = (natDigitsRevFuel n n).reverse := by
  unfold natToDecimal
  rw [if_neg (by omega)]

theorem natDigitsRevFuel_bounds : ∀ (n f : Nat), n ≤ f →
    ∀ b ∈ natDigitsRevFuel f n, 48 ≤ b ∧ b ≤ 57
  | 0, f, _, b, hb => by cases f <;> simp [natDigitsRevFuel] at hb
  | n + 1, 0, h, _, _ => absurd h (by omega)
  | n + 1, f + 1, h, b, hb => by
      have hq : (n + 1) / 10 < n + 1 := Nat.div_lt_self (Nat.succ_pos n) (by omega)
      simp only [natDigitsRevFuel, List.mem_cons] at hb
      rcases hb with hb | hb
      · subst hb
        have : (n + 1) % 10 ≤ 9 := by omega
        omega
      · exact natDigitsRevFuel_bounds ((n + 1) / 10) f (by omega) b hb
termination_by n _ _ _ _ => n

theorem foldl_digits : ∀ (n f : Nat), n ≤ f → ∀ (acc : Nat),
    (natDigitsRevFuel f n).reverse.foldl (fun a b => a * 10 + (b - 48)) acc =
      acc * 10 ^ (natDigitsRevFuel f n).length + n
  | 0, f, _, acc => by cases f <;> simp [natDigitsRevFuel]
  | n + 1, 0, h, _ => absurd h (by omega)
  | n + 1, f + 1, h, acc => by
      have hq : (n + 1) / 10 < n + 1 := Nat.div_lt_self (Nat.succ_pos n) (by omega)
      have hdm := Nat.div_add_mod (n + 1) 10
      simp only [natDigitsRevFuel, List.reverse_cons, List.foldl_append,
        List.length_cons, List.foldl_cons, List.foldl_nil]
      rw [foldl_digits ((n + 1) / 10) f (by omega) acc]
      rw [pow_succ]
      generalize (10 : Nat) ^ (natDigitsRevFuel f ((n + 1) / 10)).length = P
      have hx : 48 + (n + 1) % 10 - 48 = (n + 1) % 10 := by omega
      rw [hx, Nat.add_mul, ← Nat.mul_assoc]
      omega
termination_by n _ _ _ => n

theorem natToDecimal_mem_bounds (n : Nat) : ∀ b ∈ natToDecimal n, 48 ≤ b ∧ b ≤ 57 := by
  intro b hb
  by_cases h : n = 0
  · subst h
    simp [natToDecimal] at hb
    omega
  · rw [natToDecimal_eq n (by omega)] at hb
    rw [List.mem_reverse] at hb
    exact natDigitsRevFuel_bounds n n le_rfl b hb

theorem natToDecimal_ne_nil (n : Nat) : natToDecimal n ≠ [] := by
  by_cases h : n = 0
  · subst h
    simp [natToDecimal]
  · obtain ⟨m, rfl⟩ : ∃ m, n = m + 1 := ⟨n - 1, by omega⟩
    rw [natToDecimal_eq _ (by omega)]
    simp [natDigitsRevFuel]

theorem parseNatDigits_natToDecimal (n : Nat) : parseNatDigits (natToDecimal n) = some n := by
  by_cases h : n = 0
  · subst h
    rfl
  · have hne := natToDecimal_ne_nil n
    have hb := natToDecimal_mem_bounds n
    unfold parseNatDigits
    rw [if_neg (by simpa [List.isEmpty_iff] using hne)]
    rw [if_pos (by
      rw [List.all_eq_true]
      intro b hbm
      have := hb b hbm
      simp only [isDigitByte, Bool.and_eq_true, decide_eq_true_eq]
      omega)]
    obtain ⟨m, rfl⟩ : ∃ m, n = m + 1 := ⟨n - 1, by omega⟩
    rw [natToDecimal_eq _ (by omega)]
    rw [foldl_digits (m + 1) (m + 1) le_rfl 0]
    simp

theorem intToDecimal_mem_bounds (n : Int) : ∀ b ∈ intToDecimal n, 45 ≤ b ∧ b ≤ 57 := by
  intro b hb
  unfold intToDecimal at hb
  by_cases h : n < 0
  · rw [if_pos h] at hb
    rcases List.mem_cons.mp hb with hb | hb
    · omega
    · have := natToDecimal_mem_bounds n.natAbs b hb
      omega
  · rw [if_neg h] at hb
    have := natToDecimal_mem_bounds n.toNat b hb
    omega

theorem parseIntBytes_intToDecimal (n : Int) : parseIntBytes (intToDecimal n) = some n := by
  by_cases h : n < 0
  · unfold intToDecimal
    rw [if_pos h]
    simp only [parseIntBytes]
    rw [if_pos trivial]
    rw [parseNatDigits_natToDecimal]
    have hn : (n.natAbs : Int) = -n := by omega
    simp [hn]
  · unfold intToDecimal
    rw [if_neg h]
    obtain ⟨d, tl, hdt⟩ : ∃ d tl, natToDecimal n.toNat = d :: tl := by
      cases hh : natToDecimal n.toNat with
      | nil => exact absurd hh (natToDecimal_ne_nil _)
      | cons d tl => exact ⟨d, tl, rfl⟩
    have hd : 48 ≤ d ∧ d ≤ 57 :=
      natToDecimal_mem_bounds n.toNat d (by rw [hdt]; exact List.mem_cons_self d tl)
    rw [hdt]
    simp only [parseIntBytes]
    rw [if_neg (by omega)]
    rw [← hdt, parseNatDigits_natToDecimal]
    have hn : ((n.toNat : Int)) = n := by omega
    simp [hn]

/-! ## Lemmas about line and frame reading -/

theorem readLine_append : ∀ (content rest : List Nat), 13 ∉ content →
    readLine (content ++ 13 :: 10 :: rest) = some (content, rest)
  | [], rest, _ => by simp [readLine]
  | [c], rest, h => by
      simp [readLine]
  | c1 :: c2 :: content, rest, h => by
      simp only [List.mem_cons, not_or] at h
      have ih := readLine_append (c2 :: content) rest (by
        simp only [List.mem_cons, not_or]
        exact ⟨h.2.1, h.2.2⟩)
      simp only [List.cons_append] at ih ⊢
      simp only [readLine]
      rw [if_neg (by rintro ⟨hc1, hc2⟩; exact h.1 hc1.symm)]
      simp [ih]

theorem readArrayHeader_header (n : Nat) (rest : List Nat) :
    readArrayHeader (arrayHeader n ++ rest) = Except.ok (n, rest) := by
  have h13 : 13 ∉ natToDecimal n := by
    intro hmem
    have := natToDecimal_mem_bounds n 13 hmem
    omega
  unfold arrayHeader
  simp only [List.cons_append, List.append_assoc, List.nil_append]
  simp only [readArrayHeader]
  rw [readLine_append (natToDecimal n) rest h13]
  simp [parseNatDigits_natToDecimal]

theorem readArrayHeader_pair (rest : List Nat) :
    readArrayHeader (42 :: 50 :: 13 :: 10 :: rest) = Except.ok (2, rest) :=
  readArrayHeader_header 2 rest

theorem readIntFrame_intFrame (n : Int) (rest : List Nat) :
    readIntFrame (intFrame n ++ rest) = Except.ok (n, rest) := by
  have h13 : 13 ∉ intToDecimal n := by
    intro hmem
    have := intToDecimal_mem_bounds n 13 hmem
    omega
  unfold intFrame
  simp only [List.cons_append, List.append_assoc, List.nil_append]
  simp only [readIntFrame]
  rw [readLine_append (intToDecimal n) rest h13]
  simp [parseIntBytes_intToDecimal]

theorem readIntFrame_natFrame (m : Nat) (rest : List Nat) :
    readIntFrame (natFrame m ++ rest) = Except.ok ((m : Int), rest) := by
  have h : natFrame m = intFrame (m : Int) := by
    unfold natFrame intFrame intToDecimal
    rw [if_neg (by omega)]
    simp
  rw [h, readIntFrame_intFrame]

theorem readBulkTail_encoded (payload rest : List Nat) :
    readBulkTail (natToDecimal payload.length ++ 13 :: 10 :: (payload ++ 13 :: 10 :: rest)) =
      Except.ok (payload, rest) := by
  have h13 : 13 ∉ natToDecimal payload.length := by
    intro hmem
    have := natToDecimal_mem_bounds payload.length 13 hmem
    omega
  unfold readBulkTail
  rw [readLine_append _ _ h13]
  simp only [parseNatDigits_natToDecimal]
  rw [if_pos (by simp only [List.length_append, List.length_cons]; omega)]
  rw [List.drop_left]
  simp [List.take_left]

theorem readTextFrame_bulkFrame (b rest : List Nat) :
    readTextFrame (bulkFrame b ++ rest) = Except.ok (b, rest) := by
  unfold bulkFrame
  simp only [List.cons_append, List.append_assoc, List.nil_append]
  simp only [readTextFrame]
  exact readBulkTail_encoded b rest

theorem readTextFrame_strFrame (s rest : List Nat) :
    readTextFrame (strFrame s ++ rest) = Except.ok (s, rest) := by
  unfold strFrame
  by_cases h : 13 ∈ s ∨ 10 ∈ s
  · rw [if_pos h]
    exact readTextFrame_bulkFrame s rest
  · rw [if_neg h]
    simp only [List.cons_append, List.append_assoc, List.nil_append]
    simp only [readTextFrame]
    rw [readLine_append s rest (fun hm => h (Or.inl hm))]

theorem readText_strFrame (s rest : List Nat) (h : validUtf8 s = true) :
    readText (strFrame s ++ rest) = Except.ok (s, rest) := by
  unfold readText
  rw [readTextFrame_strFrame]
  simp [h]

theorem strFrame_head_ne (s rest : List Nat) :
    ¬ (strFrame s ++ rest).head? = some 42 := by
  unfold strFrame
  by_cases h : 13 ∈ s ∨ 10 ∈ s
  · rw [if_pos h]
    simp [bulkFrame]
  · rw [if_neg h]
    simp


/-! ## Lemmas about conformance and depth -/

theorem isOneChar_valid : ∀ (c : List Nat), isOneChar c = true → validUtf8 c = true
  | [], h => by simp [isOneChar] at h
  | _ :: _, h => by
      simp only [isOneChar, Bool.and_eq_true] at h
      exact h.1

theorem conformsAll_mem (e : Shape) : ∀ (l : List Value), conformsAll e l = true →
    ∀ x ∈ l, conforms e x = true
  | [], _, x, hx => absurd hx (List.not_mem_nil x)
  | v :: tl, hc, x, hx => by
      simp only [conformsAll, Bool.and_eq_true] at hc
      rcases List.mem_cons.mp hx with rfl | hx
      · exact hc.1
      · exact conformsAll_mem e tl hc.2 x hx

theorem conformsList_length : ∀ (ss : List Shape) (l : List Value),
    conformsList ss l = true → ss.length = l.length
  | [], [], _ => rfl
  | [], _ :: _, hc => by simp [conformsList] at hc
  | _ :: _, [], hc => by simp [conformsList] at hc
  | s :: ss, v :: tl, hc => by
      simp only [conformsList, Bool.and_eq_true] at hc
      simp [conformsList_length ss tl hc.2]

theorem conformsFields_length : ∀ (ss : List Shape) (fields : List (List Nat × Value)),
    conformsFields ss fields = true → ss.length = fields.length
  | [], [], _ => rfl
  | [], _ :: _, hc => by simp [conformsFields] at hc
  | _ :: _, [], hc => by simp [conformsFields] at hc
  | s :: ss, (name, v) :: tl, hc => by
      simp only [conformsFields, Bool.and_eq_true] at hc
      simp [conformsFields_length ss tl hc.2]

theorem vdepth_pos (v : Value) : 1 ≤ vdepth v := by
  cases v <;> simp only [vdepth] <;> omega

theorem vdepthList_mem : ∀ (l : List Value) (x : Value), x ∈ l → vdepth x ≤ vdepthList l
  | v :: tl, x, hx => by
      simp only [vdepthList]
      rcases List.mem_cons.mp hx with rfl | hx
      · exact le_max_left _ _
      · exact le_trans (vdepthList_mem tl x hx) (le_max_right _ _)

theorem vdepthPairs_mem : ∀ (entries : List (Value × Value)) (k w : Value),
    (k, w) ∈ entries → vdepth k ≤ vdepthPairs entries ∧ vdepth w ≤ vdepthPairs entries
  | (k0, w0) :: tl, k, w, hx => by
      simp only [vdepthPairs]
      rcases List.mem_cons.mp hx with heq | hx
      · injection heq with hk hw
        subst hk
        subst hw
        constructor
        · exact le_trans (le_max_left _ _) (le_max_left _ _)
        · exact le_trans (le_max_right _ _) (le_max_left _ _)
      · have ih := vdepthPairs_mem tl k w hx
        constructor
        · exact le_trans ih.1 (le_max_right _ _)
        · exact le_trans ih.2 (le_max_right _ _)

theorem vdepthFields_mem : ∀ (fields : List (List Nat × Value)) (name : List Nat) (v : Value),
    (name, v) ∈ fields → vdepth v ≤ vdepthFields fields
  | (n0, v0) :: tl, name, v, hx => by
      simp only [vdepthFields]
      rcases List.mem_cons.mp hx with heq | hx
      · obtain rfl : v = v0 := congrArg Prod.snd heq
        exact le_max_left _ _
      · exact le_trans (vdepthFields_mem tl name v hx) (le_max_right _ _)

theorem conformsPairs_mem (ks ws : Shape) : ∀ (entries : List (Value × Value)),
    conformsPairs ks ws entries = true → ∀ p ∈ entries,
      conforms ks p.1 = true ∧ conforms ws p.2 = true
  | (k, w) :: tl, hc, p, hp => by
      simp only [conformsPairs, Bool.and_eq_true] at hc
      rcases List.mem_cons.mp hp with rfl | hp
      · exact ⟨hc.1.1, hc.1.2⟩
      · exact conformsPairs_mem ks ws tl hc.2 p hp

/-! ## Round-trip lemmas for the compound decoders -/

theorem decodeCount_roundtrip (dec : List Nat → Except DeError (Value × List Nat)) :
    ∀ (l : List Value) (rest : List Nat),
      (∀ x ∈ l, ∀ r, dec (encodeV x ++ r) = Except.ok (x, r)) →
      decodeCount dec l.length (encodeList l ++ rest) = Except.ok (l, rest)
  | [], rest, _ => by simp [decodeCount, encodeList]
  | v :: tl, rest, h => by
      simp only [encodeList, List.append_assoc, List.length_cons, decodeCount,
        h v (List.mem_cons_self v tl),
        decodeCount_roundtrip dec tl rest (fun x hx r => h x (List.mem_cons_of_mem v hx) r)]

theorem decodeShapes_roundtrip (dec : Shape → List Nat → Except DeError (Value × List Nat)) :
    ∀ (ss : List Shape) (l : List Value) (rest : List Nat),
      conformsList ss l = true →
      (∀ x ∈ l, ∀ s, conforms s x = true → ∀ r, dec s (encodeV x ++ r) = Except.ok (x, r)) →
      decodeShapes dec ss (encodeList l ++ rest) = Except.ok (l, rest)
  | [], [], rest, _, _ => by simp [decodeShapes, encodeList]
  | [], _ :: _, rest, hc, _ => by simp [conformsList] at hc
  | _ :: _, [], rest, hc, _ => by simp [conformsList] at hc
  | s :: ss, v :: tl, rest, hc, h => by
      simp only [conformsList, Bool.and_eq_true] at hc
      simp only [encodeList, List.append_assoc, decodeShapes,
        h v (List.mem_cons_self v tl) s hc.1,
        decodeShapes_roundtrip dec ss tl rest hc.2
          (fun x hx s2 hs2 r => h x (List.mem_cons_of_mem v hx) s2 hs2 r)]

theorem decodePairs_roundtrip (decK decW : List Nat → Except DeError (Value × List Nat)) :
    ∀ (entries : List (Value × Value)) (rest : List Nat),
      (∀ p ∈ entries, ∀ r, decK (encodeV p.1 ++ r) = Except.ok (p.1, r)) →
      (∀ p ∈ entries, ∀ r, decW (encodeV p.2 ++ r) = Except.ok (p.2, r)) →
      decodePairs decK decW entries.length (encodeEntries entries ++ rest) =
        Except.ok (entries, rest)
  | [], rest, _, _ => by simp [decodePairs, encodeEntries]
  | (k, w) :: tl, rest, hK, hW => by
      simp only [encodeEntries, List.append_assoc, List.cons_append, List.nil_append,
        List.length_cons, decodePairs, readArrayHeader_pair, if_true,
        hK (k, w) (List.mem_cons_self _ _), hW (k, w) (List.mem_cons_self _ _),
        decodePairs_roundtrip decK decW tl rest
          (fun p hp r => hK p (List.mem_cons_of_mem _ hp) r)
          (fun p hp r => hW p (List.mem_cons_of_mem _ hp) r)]

theorem decodeFieldsAt_roundtrip (dec : Shape → List Nat → Except DeError (Value × List Nat)) :
    ∀ (ss : List Shape) (fields : List (List Nat × Value)) (rest : List Nat),
      conformsFields ss fields = true →
      (∀ p ∈ fields, ∀ s, conforms s p.2 = true →
        ∀ r, dec s (encodeV p.2 ++ r) = Except.ok (p.2, r)) →
      decodeFieldsAt dec ss (encodeFields fields ++ rest) = Except.ok (fields, rest)
  | [], [], rest, _, _ => by simp [decodeFieldsAt, encodeFields]
  | [], _ :: _, rest, hc, _ => by simp [conformsFields] at hc
  | _ :: _, [], rest, hc, _ => by simp [conformsFields] at hc
  | s :: ss, (name, v) :: tl, rest, hc, h => by
      simp only [conformsFields, Bool.and_eq_true] at hc
      obtain ⟨⟨hn, hv⟩, htl⟩ := hc
      simp only [encodeFields, List.append_assoc, List.cons_append, List.nil_append,
        List.length_cons, decodeFieldsAt, readArrayHeader_pair, if_true,
        readText_strFrame, hn,
        h (name, v) (List.mem_cons_self _ _) s hv,
        decodeFieldsAt_roundtrip dec ss tl rest htl
          (fun p hp s2 hs2 r => h p (List.mem_cons_of_mem _ hp) s2 hs2 r)]

theorem decodeV_tuple (f : Nat) (ss : List Shape) (l : List Value) (rest : List Nat)
    (hc : conformsList ss l = true)
    (h : ∀ x ∈ l, ∀ s, conforms s x = true →
      ∀ r, decodeV f s (encodeV x ++ r) = Except.ok (x, r)) :
    decodeV (f + 1) (.sTuple ss) (arrayHeader l.length ++ (encodeList l ++ rest)) =
      Except.ok (.vTuple l, rest) := by
  have hlen := conformsList_length ss l hc
  simp only [decodeV, readArrayHeader_header]
  rw [if_pos hlen.symm]
  simp only [decodeShapes_roundtrip (fun sh inp => decodeV f sh inp) ss l rest hc h]

theorem decodeV_struct (f : Nat) (ss : List Shape) (fields : List (List Nat × Value))
    (rest : List Nat) (hc : conformsFields ss fields = true)
    (h : ∀ p ∈ fields, ∀ s, conforms s p.2 = true →
      ∀ r, decodeV f s (encodeV p.2 ++ r) = Except.ok (p.2, r)) :
    decodeV (f + 1) (.sStruct ss) (arrayHeader fields.length ++ (encodeFields fields ++ rest)) =
      Except.ok (.vStruct fields, rest) := by
  have hlen := conformsFields_length ss fields hc
  simp only [decodeV, readArrayHeader_header]
  rw [if_pos hlen.symm]
  simp only [decodeFieldsAt_roundtrip (fun sh inp => decodeV f sh inp) ss fields rest hc h]

theorem head42 (t : List Nat) : (42 :: t).head? = some 42 := rfl

/-! ## The main round-trip theorem -/

theorem decodeV_encodeV : ∀ (v : Value) (s : Shape), conforms s v = true →
    ∀ (fuel : Nat), vdepth v ≤ fuel → ∀ (rest : List Nat),
      decodeV fuel s (encodeV v ++ rest) = Except.ok (v, rest)
  | .vBool b, s, hc, fuel, hf, rest => by
      obtain ⟨f, rfl⟩ : ∃ f, fuel = f + 1 := ⟨fuel - 1, by have := vdepth_pos (.vBool b); omega⟩
      cases s <;> simp [conforms] at hc
      cases b <;> simp [encodeV, decodeV, readIntFrame_intFrame]
  | .vI64 n, s, hc, fuel, hf, rest => by
      obtain ⟨f, rfl⟩ : ∃ f, fuel = f + 1 := ⟨fuel - 1, by have := vdepth_pos (.vI64 n); omega⟩
      cases s <;> simp [conforms] at hc
      simp only [encodeV, decodeV, readIntFrame_intFrame]
      have hcond : -(2 ^ 63) ≤ n ∧ n < 2 ^ 63 := by omega
      rw [if_pos hcond]
  | .vU64 n, s, hc, fuel, hf, rest => by
      obtain ⟨f, rfl⟩ : ∃ f, fuel = f + 1 := ⟨fuel - 1, by have := vdepth_pos (.vU64 n); omega⟩
      cases s <;> simp [conforms] at hc
      simp only [encodeV, decodeV, readIntFrame_natFrame]
      have hcond : 0 ≤ (n : Int) ∧ (n : Int) < 2 ^ 64 := by omega
      rw [if_pos hcond]
      simp
  | .vStr s0, s, hc, fuel, hf, rest => by
      obtain ⟨f, rfl⟩ : ∃ f, fuel = f + 1 := ⟨fuel - 1, by have := vdepth_pos (.vStr s0); omega⟩
      cases s <;> simp [conforms] at hc
      simp only [encodeV, decodeV, readText_strFrame s0 rest hc]
  | .vBytes b0, s, hc, fuel, hf, rest => by
      obtain ⟨f, rfl⟩ : ∃ f, fuel = f + 1 := ⟨fuel - 1, by have := vdepth_pos (.vBytes b0); omega⟩
      cases s <;> simp [conforms] at hc
      simp only [encodeV, decodeV, readTextFrame_bulkFrame]
  | .vChar c, s, hc, fuel, hf, rest => by
      obtain ⟨f, rfl⟩ : ∃ f, fuel = f + 1 := ⟨fuel - 1, by have := vdepth_pos (.vChar c); omega⟩
      cases s <;> simp [conforms] at hc
      simp [encodeV, decodeV, readText_strFrame c rest (isOneChar_valid c hc), hc]
  | .vNone, s, hc, fuel, hf, rest => by
      obtain ⟨f, rfl⟩ : ∃ f, fuel = f + 1 := ⟨fuel - 1, by have := vdepth_pos .vNone; omega⟩
      cases s <;> simp [conforms] at hc
      simp [encodeV, decodeV, List.append_assoc, readArrayHeader_header]
  | .vSome v, s, hc, fuel, hf, rest => by
      obtain ⟨f, rfl⟩ : ∃ f, fuel = f + 1 := ⟨fuel - 1, by have := vdepth_pos (.vSome v); omega⟩
      cases s <;> simp [conforms] at hc
      rename_i sp
      have hdep : vdepth v ≤ f := by simp only [vdepth] at hf; omega
      simp [encodeV, decodeV, List.append_assoc, readArrayHeader_header,
        decodeV_encodeV v sp hc f hdep rest]
  | .vUnit, s, hc, fuel, hf, rest => by
      obtain ⟨f, rfl⟩ : ∃ f, fuel = f + 1 := ⟨fuel - 1, by have := vdepth_pos .vUnit; omega⟩
      cases s <;> simp [conforms] at hc
      simp [encodeV, decodeV, nullBulk]
  | .vUnitStruct, s, hc, fuel, hf, rest => by
      obtain ⟨f, rfl⟩ : ∃ f, fuel = f + 1 := ⟨fuel - 1, by have := vdepth_pos .vUnitStruct; omega⟩
      cases s <;> simp [conforms] at hc
      simp [encodeV, decodeV, nullBulk]
  | .vUnitVariant name, s, hc, fuel, hf, rest => by
      obtain ⟨f, rfl⟩ : ∃ f, fuel = f + 1 :=
        ⟨fuel - 1, by have := vdepth_pos (.vUnitVariant name); omega⟩
      cases s <;> simp [conforms] at hc
      rename_i variants
      obtain ⟨hn, hm⟩ := hc
      have hfv : findVariant name variants = some .sVarUnit := by
        cases hq : findVariant name variants with
        | none => rw [hq] at hm; simp at hm
        | some sh =>
          rw [hq] at hm
          cases sh <;> try simp at hm
          rfl
      simp only [encodeV, decodeV]
      rw [if_neg (strFrame_head_ne name rest)]
      simp [readText_strFrame name rest hn, hfv]
  | .vNewtypeStruct v, s, hc, fuel, hf, rest => by
      obtain ⟨f, rfl⟩ : ∃ f, fuel = f + 1 :=
        ⟨fuel - 1, by have := vdepth_pos (.vNewtypeStruct v); omega⟩
      cases s <;> simp [conforms] at hc
      rename_i sp
      have hdep : vdepth v ≤ f := by simp only [vdepth] at hf; omega
      simp only [encodeV, decodeV, decodeV_encodeV v sp hc f hdep rest]
  | .vNewtypeVariant name v, s, hc, fuel, hf, rest => by
      obtain ⟨f, rfl⟩ : ∃ f, fuel = f + 1 :=
        ⟨fuel - 1, by have := vdepth_pos (.vNewtypeVariant name v); omega⟩
      cases s <;> simp [conforms] at hc
      rename_i variants
      obtain ⟨hn, hm⟩ := hc
      have hex : ∃ sp, findVariant name variants = some (.sVarNewtype sp) ∧
          conforms sp v = true := by
        cases hq : findVariant name variants with
        | none => rw [hq] at hm; simp at hm
        | some sh =>
          rw [hq] at hm
          cases sh <;> try simp at hm
          exact ⟨_, rfl, hm⟩
      obtain ⟨sp, hfv, hcv⟩ := hex
      have hdep : vdepth v ≤ f := by simp only [vdepth] at hf; omega
      simp only [encodeV, decodeV, List.cons_append, List.nil_append, List.append_assoc]
      rw [if_pos (head42 _)]
      simp [readArrayHeader_pair, readText_strFrame, hn, hfv,
        decodeV_encodeV v sp hcv f hdep rest]
  | .vSeq l, s, hc, fuel, hf, rest => by
      obtain ⟨f, rfl⟩ : ∃ f, fuel = f + 1 := ⟨fuel - 1, by have := vdepth_pos (.vSeq l); omega⟩
      cases s <;> simp [conforms] at hc
      rename_i e
      have hmem : ∀ x ∈ l, ∀ r, decodeV f e (encodeV x ++ r) = Except.ok (x, r) := by
        intro x hx r
        have hcx := conformsAll_mem e l hc x hx
        have hdx : vdepth x ≤ f := by
          have h1 := vdepthList_mem l x hx
          simp only [vdepth] at hf
          omega
        exact decodeV_encodeV x e hcx f hdx r
      simp only [encodeV, decodeV, List.append_assoc, readArrayHeader_header,
        decodeCount_roundtrip (fun inp => decodeV f e inp) l rest hmem]
  | .vTuple l, s, hc, fuel, hf, rest => by
      obtain ⟨f, rfl⟩ : ∃ f, fuel = f + 1 := ⟨fuel - 1, by have := vdepth_pos (.vTuple l); omega⟩
      cases s <;> simp [conforms] at hc
      rename_i ss
      have hmem : ∀ x ∈ l, ∀ s2, conforms s2 x = true → ∀ r,
          decodeV f s2 (encodeV x ++ r) = Except.ok (x, r) := by
        intro x hx s2 hs2 r
        have hdx : vdepth x ≤ f := by
          have h1 := vdepthList_mem l x hx
          simp only [vdepth] at hf
          omega
        exact decodeV_encodeV x s2 hs2 f hdx r
      simp only [encodeV, List.append_assoc]
      exact decodeV_tuple f ss l rest hc hmem
  | .vTupleVariant name l, s, hc, fuel, hf, rest => by
      obtain ⟨f, rfl⟩ : ∃ f, fuel = f + 1 :=
        ⟨fuel - 1, by have := vdepth_pos (.vTupleVariant name l); omega⟩
      cases s <;> simp [conforms] at hc
      rename_i variants
      obtain ⟨hn, hm⟩ := hc
      have hex : ∃ ss, findVariant name variants = some (.sVarTuple ss) ∧
          conformsList ss l = true := by
        cases hq : findVariant name variants with
        | none => rw [hq] at hm; simp at hm
        | some sh =>
          rw [hq] at hm
          cases sh <;> try simp at hm
          exact ⟨_, rfl, hm⟩
      obtain ⟨ss, hfv, hcl⟩ := hex
      obtain ⟨g, rfl⟩ : ∃ g, f = g + 1 := ⟨f - 1, by simp only [vdepth] at hf; omega⟩
      have hmem : ∀ x ∈ l, ∀ s2, conforms s2 x = true → ∀ r,
          decodeV g s2 (encodeV x ++ r) = Except.ok (x, r) := by
        intro x hx s2 hs2 r
        have hdx : vdepth x ≤ g := by
          have h1 := vdepthList_mem l x hx
          simp only [vdepth] at hf
          omega
        exact decodeV_encodeV x s2 hs2 g hdx r
      have hlen := conformsList_length ss l hcl
      simp only [encodeV, decodeV, List.cons_append, List.nil_append, List.append_assoc]
      rw [if_pos (head42 _)]
      simp [readArrayHeader_pair, readText_strFrame, hn, hfv, readArrayHeader_header, hlen.symm,
        decodeShapes_roundtrip (fun sh inp => decodeV g sh inp) ss l rest hcl hmem]
  | .vMap entries, s, hc, fuel, hf, rest => by
      obtain ⟨f, rfl⟩ : ∃ f, fuel = f + 1 :=
        ⟨fuel - 1, by have := vdepth_pos (.vMap entries); omega⟩
      cases s <;> simp [conforms] at hc
      rename_i ks ws
      have hK : ∀ p ∈ entries, ∀ r, decodeV f ks (encodeV p.1 ++ r) = Except.ok (p.1, r) := by
        intro p hp r
        obtain ⟨k, w⟩ := p
        have hcp := conformsPairs_mem ks ws entries hc (k, w) hp
        have hdx : vdepth k ≤ f := by
          have h1 := (vdepthPairs_mem entries k w hp).1
          simp only [vdepth] at hf
          omega
        exact decodeV_encodeV k ks hcp.1 f hdx r
      have hW : ∀ p ∈ entries, ∀ r, decodeV f ws (encodeV p.2 ++ r) = Except.ok (p.2, r) := by
        intro p hp r
        obtain ⟨k, w⟩ := p
        have hcp := conformsPairs_mem ks ws entries hc (k, w) hp
        have hdx : vdepth w ≤ f := by
          have h1 := (vdepthPairs_mem entries k w hp).2
          simp only [vdepth] at hf
          omega
        exact decodeV_encodeV w ws hcp.2 f hdx r
      simp only [encodeV, decodeV, List.append_assoc, readArrayHeader_header,
        decodePairs_roundtrip (fun inp => decodeV f ks inp) (fun inp => decodeV f ws inp)
          entries rest hK hW]
  | .vStruct fields, s, hc, fuel, hf, rest => by
      obtain ⟨f, rfl⟩ : ∃ f, fuel = f + 1 :=
        ⟨fuel - 1, by have := vdepth_pos (.vStruct fields); omega⟩
      cases s <;> simp [conforms] at hc
      rename_i ss
      have hmem : ∀ p ∈ fields, ∀ s2, conforms s2 p.2 = true → ∀ r,
          decodeV f s2 (encodeV p.2 ++ r) = Except.ok (p.2, r) := by
        intro p hp s2 hs2 r
        obtain ⟨nm, v⟩ := p
        have hdx : vdepth v ≤ f := by
          have h1 := vdepthFields_mem fields nm v hp
          simp only [vdepth] at hf
          omega
        exact decodeV_encodeV v s2 hs2 f hdx r
      simp only [encodeV, List.append_assoc]
      exact decodeV_struct f ss fields rest hc hmem
  | .vStructVariant name fields, s, hc, fuel, hf, rest => by
      obtain ⟨f, rfl⟩ : ∃ f, fuel = f + 1 :=
        ⟨fuel - 1, by have := vdepth_pos (.vStructVariant name fields); omega⟩
      cases s <;> simp [conforms] at hc
      rename_i variants
      obtain ⟨hn, hm⟩ := hc
      have hex : ∃ ss, findVariant name variants = some (.sVarStruct ss) ∧
          conformsFields ss fields = true := by
        cases hq : findVariant name variants with
        | none => rw [hq] at hm; simp at hm
        | some sh =>
          rw [hq] at hm
          cases sh <;> try simp at hm
          exact ⟨_, rfl, hm⟩
      obtain ⟨ss, hfv, hcl⟩ := hex
      obtain ⟨g, rfl⟩ : ∃ g, f = g + 1 := ⟨f - 1, by simp only [vdepth] at hf; omega⟩
      have hmem : ∀ p ∈ fields, ∀ s2, conforms s2 p.2 = true → ∀ r,
          decodeV g s2 (encodeV p.2 ++ r) = Except.ok (p.2, r) := by
        intro p hp s2 hs2 r
        obtain ⟨nm, v⟩ := p
        have hdx : vdepth v ≤ g := by
          have h1 := vdepthFields_mem fields nm v hp
          simp only [vdepth] at hf
          omega
        exact decodeV_encodeV v s2 hs2 g hdx r
      have hlen := conformsFields_length ss fields hcl
      simp only [encodeV, decodeV, List.cons_append, List.nil_append, List.append_assoc]
      rw [if_pos (head42 _)]
      simp [readArrayHeader_pair, readText_strFrame, hn, hfv, readArrayHeader_header, hlen.symm,
        decodeFieldsAt_roundtrip (fun sh inp => decodeV g sh inp) ss fields rest hcl hmem]
termination_by v _ _ _ _ _ => sizeOf v
decreasing_by
  all_goals simp_wf
  all_goals try omega
  all_goals
    first
      | (have hlt := List.sizeOf_lt_of_mem (show _ ∈ _ by assumption)
         simp only [Prod.mk.sizeOf_spec] at hlt
         omega)
      | (have hlt := List.sizeOf_lt_of_mem (show _ ∈ _ by assumption)
         omega)

/-! ## Depth bound: the decoder fuel suffices for encoder output -/

theorem shapeNest_pos (s : Shape) : 1 ≤ shapeNest s := by
  cases s <;> simp [shapeNest] <;> omega

theorem findVariant_nest : ∀ (variants : List (List Nat × Shape)) (name : List Nat) (sh : Shape),
    findVariant name variants = some sh → shapeNest sh ≤ shapeNestVars variants
  | [], name, sh, h => by simp [findVariant] at h
  | (n0, s0) :: tl, name, sh, h => by
      simp only [findVariant] at h
      by_cases he : name = n0
      · rw [if_pos he] at h
        injection h with h2
        subst h2
        simp only [shapeNestVars]
        exact le_max_left _ _
      · rw [if_neg he] at h
        refine le_trans (findVariant_nest tl name sh h) ?_
        simp only [shapeNestVars]
        exact le_max_right _ _

theorem vdepthList_le_all (e : Shape) : ∀ (l : List Value),
    (∀ x ∈ l, vdepth x ≤ (encodeV x).length + shapeNest e) →
    vdepthList l ≤ (encodeList l).length + shapeNest e
  | [], _ => by simp [vdepthList]
  | v :: tl, h => by
      simp only [vdepthList, encodeList, List.length_append]
      have h1 := h v (List.mem_cons_self _ _)
      have h2 := vdepthList_le_all e tl (fun x hx => h x (List.mem_cons_of_mem _ hx))
      exact max_le (by omega) (by omega)

theorem vdepthList_le_pos : ∀ (ss : List Shape) (l : List Value), conformsList ss l = true →
    (∀ x ∈ l, ∀ s, conforms s x = true → vdepth x ≤ (encodeV x).length + shapeNest s) →
    vdepthList l ≤ (encodeList l).length + shapeNestList ss
  | [], [], _, _ => by simp [vdepthList]
  | [], _ :: _, hc, _ => by simp [conformsList] at hc
  | _ :: _, [], hc, _ => by simp [vdepthList]
  | s :: ss, v :: tl, hc, h => by
      simp only [conformsList, Bool.and_eq_true] at hc
      simp only [vdepthList, encodeList, List.length_append, shapeNestList]
      have h1 := h v (List.mem_cons_self _ _) s hc.1
      have h2 := vdepthList_le_pos ss tl hc.2
        (fun x hx s2 hs2 => h x (List.mem_cons_of_mem _ hx) s2 hs2)
      have hm1 : shapeNest s ≤ max (shapeNest s) (shapeNestList ss) := le_max_left _ _
      have hm2 : shapeNestList ss ≤ max (shapeNest s) (shapeNestList ss) := le_max_right _ _
      exact max_le (by omega) (by omega)

theorem vdepthPairs_le (ks ws : Shape) : ∀ (entries : List (Value × Value)),
    (∀ p ∈ entries, vdepth p.1 ≤ (encodeV p.1).length + shapeNest ks ∧
      vdepth p.2 ≤ (encodeV p.2).length + shapeNest ws) →
    vdepthPairs entries ≤ (encodeEntries entries).length + shapeNest ks + shapeNest ws
  | [], _ => by simp [vdepthPairs]
  | (k, w) :: tl, h => by
      simp only [vdepthPairs, encodeEntries, List.length_append, List.length_cons,
        List.length_nil, List.cons_append, List.nil_append]
      have h1 := h (k, w) (List.mem_cons_self _ _)
      have h2 := vdepthPairs_le ks ws tl (fun p hp => h p (List.mem_cons_of_mem _ hp))
      have h1a : vdepth k ≤ (encodeV k).length + shapeNest ks := h1.1
      have h1b : vdepth w ≤ (encodeV w).length + shapeNest ws := h1.2
      exact max_le (max_le (by omega) (by omega)) (by omega)

theorem vdepthFields_le : ∀ (ss : List Shape) (fields : List (List Nat × Value)),
    conformsFields ss fields = true →
    (∀ p ∈ fields, ∀ s, conforms s p.2 = true →
      vdepth p.2 ≤ (encodeV p.2).length + shapeNest s) →
    vdepthFields fields ≤ (encodeFields fields).length + shapeNestList ss
  | [], [], _, _ => by simp [vdepthFields]
  | [], _ :: _, hc, _ => by simp [conformsFields] at hc
  | _ :: _, [], hc, _ => by simp [vdepthFields]
  | s :: ss, (name, v) :: tl, hc, h => by
      simp only [conformsFields, Bool.and_eq_true] at hc
      obtain ⟨⟨hn, hv⟩, htl⟩ := hc
      simp only [vdepthFields, encodeFields, List.length_append, List.length_cons,
        List.length_nil, List.cons_append, List.nil_append, shapeNestList]
      have h1 : vdepth v ≤ (encodeV v).length + shapeNest s := h (name, v) (List.mem_cons_self _ _) s hv
      have h2 := vdepthFields_le ss tl htl
        (fun p hp s2 hs2 => h p (List.mem_cons_of_mem _ hp) s2 hs2)
      have hm1 : shapeNest s ≤ max (shapeNest s) (shapeNestList ss) := le_max_left _ _
      have hm2 : shapeNestList ss ≤ max (shapeNest s) (shapeNestList ss) := le_max_right _ _
      exact max_le (by omega) (by omega)

theorem vdepth_le_encode : ∀ (v : Value) (s : Shape), conforms s v = true →
    vdepth v ≤ (encodeV v).length + shapeNest s
  | .vBool b, s, hc => by
      cases s <;> simp [conforms] at hc
      simp [vdepth, shapeNest]
  | .vI64 n, s, hc => by
      cases s <;> simp [conforms] at hc
      simp [vdepth, shapeNest]
  | .vU64 n, s, hc => by
      cases s <;> simp [conforms] at hc
      simp [vdepth, shapeNest]
  | .vStr s0, s, hc => by
      cases s <;> simp [conforms] at hc
      simp [vdepth, shapeNest]
  | .vBytes b0, s, hc => by
      cases s <;> simp [conforms] at hc
      simp [vdepth, shapeNest]
  | .vChar c, s, hc => by
      cases s <;> simp [conforms] at hc
      simp [vdepth, shapeNest]
  | .vNone, s, hc => by
      cases s <;> simp [conforms] at hc
      simp only [vdepth, shapeNest]
      omega
  | .vSome v, s, hc => by
      cases s <;> simp [conforms] at hc
      rename_i sp
      have ih := vdepth_le_encode v sp hc
      simp only [vdepth, encodeV, shapeNest, List.length_append]
      omega
  | .vUnit, s, hc => by
      cases s <;> simp [conforms] at hc
      simp [vdepth, shapeNest]
  | .vUnitStruct, s, hc => by
      cases s <;> simp [conforms] at hc
      simp [vdepth, shapeNest]
  | .vUnitVariant name, s, hc => by
      cases s <;> simp [conforms] at hc
      simp only [vdepth, shapeNest]
      omega
  | .vNewtypeStruct v, s, hc => by
      cases s <;> simp [conforms] at hc
      rename_i sp
      have ih := vdepth_le_encode v sp hc
      simp only [vdepth, encodeV, shapeNest]
      omega
  | .vNewtypeVariant name v, s, hc => by
      cases s <;> simp [conforms] at hc
      rename_i variants
      obtain ⟨hn, hm⟩ := hc
      have hex : ∃ sp, findVariant name variants = some (.sVarNewtype sp) ∧
          conforms sp v = true := by
        cases hq : findVariant name variants with
        | none => rw [hq] at hm; simp at hm
        | some sh =>
          rw [hq] at hm
          cases sh <;> try simp at hm
          exact ⟨_, rfl, hm⟩
      obtain ⟨sp, hfv, hcv⟩ := hex
      have ih := vdepth_le_encode v sp hcv
      have hnest := findVariant_nest variants name _ hfv
      simp only [shapeNest] at hnest
      simp only [vdepth, encodeV, shapeNest, List.length_append]
      omega
  | .vSeq l, s, hc => by
      cases s <;> simp [conforms] at hc
      rename_i e
      have hl := vdepthList_le_all e l
        (fun x hx => vdepth_le_encode x e (conformsAll_mem e l hc x hx))
      simp only [vdepth, encodeV, shapeNest, List.length_append]
      omega
  | .vTuple l, s, hc => by
      cases s <;> simp [conforms] at hc
      rename_i ss
      have hl := vdepthList_le_pos ss l hc (fun x hx s2 hs2 => vdepth_le_encode x s2 hs2)
      simp only [vdepth, encodeV, shapeNest, List.length_append]
      omega
  | .vTupleVariant name l, s, hc => by
      cases s <;> simp [conforms] at hc
      rename_i variants
      obtain ⟨hn, hm⟩ := hc
      have hex : ∃ ss, findVariant name variants = some (.sVarTuple ss) ∧
          conformsList ss l = true := by
        cases hq : findVariant name variants with
        | none => rw [hq] at hm; simp at hm
        | some sh =>
          rw [hq] at hm
          cases sh <;> try simp at hm
          exact ⟨_, rfl, hm⟩
      obtain ⟨ss, hfv, hcl⟩ := hex
      have hl := vdepthList_le_pos ss l hcl (fun x hx s2 hs2 => vdepth_le_encode x s2 hs2)
      have hnest := findVariant_nest variants name _ hfv
      simp only [shapeNest] at hnest
      simp only [vdepth, encodeV, shapeNest, List.length_append]
      omega
  | .vMap entries, s, hc => by
      cases s <;> simp [conforms] at hc
      rename_i ks ws
      have hP : ∀ p ∈ entries, vdepth p.1 ≤ (encodeV p.1).length + shapeNest ks ∧
          vdepth p.2 ≤ (encodeV p.2).length + shapeNest ws := by
        intro p hp
        obtain ⟨k, w⟩ := p
        have hcp := conformsPairs_mem ks ws entries hc (k, w) hp
        exact ⟨vdepth_le_encode k ks hcp.1, vdepth_le_encode w ws hcp.2⟩
      have hl := vdepthPairs_le ks ws entries hP
      simp only [vdepth, encodeV, shapeNest, List.length_append]
      omega
  | .vStruct fields, s, hc => by
      cases s <;> simp [conforms] at hc
      rename_i ss
      have hl := vdepthFields_le ss fields hc (by
        intro p hp s2 hs2
        obtain ⟨nm, v⟩ := p
        exact vdepth_le_encode v s2 hs2)
      simp only [vdepth, encodeV, shapeNest, List.length_append]
      omega
  | .vStructVariant name fields, s, hc => by
      cases s <;> simp [conforms] at hc
      rename_i variants
      obtain ⟨hn, hm⟩ := hc
      have hex : ∃ ss, findVariant name variants = some (.sVarStruct ss) ∧
          conformsFields ss fields = true := by
        cases hq : findVariant name variants with
        | none => rw [hq] at hm; simp at hm
        | some sh =>
          rw [hq] at hm
          cases sh <;> try simp at hm
          exact ⟨_, rfl, hm⟩
      obtain ⟨ss, hfv, hcl⟩ := hex
      have hl := vdepthFields_le ss fields hcl (by
        intro p hp s2 hs2
        obtain ⟨nm, v⟩ := p
        exact vdepth_le_encode v s2 hs2)
      have hnest := findVariant_nest variants name _ hfv
      simp only [shapeNest] at hnest
      simp only [vdepth, encodeV, shapeNest, List.length_append]
      omega
termination_by v _ _ => sizeOf v
decreasing_by
  all_goals simp_wf
  all_goals
    first
      | (have hlt := List.sizeOf_lt_of_mem (show _ ∈ _ by assumption)
         simp only [Prod.mk.sizeOf_spec] at hlt
         omega)
      | (have hlt := List.sizeOf_lt_of_mem (show _ ∈ _ by assumption)
         omega)
      | omega

/-! ## Round trip of the top-level entry points -/

/-- C1: for every value `v` of a supported shape -- that is, every value
together with a requested shape `s` that `v` fits, `s` being the shape the
caller's target type derives for `v` -- decoding the encoder's output while
requesting that shape yields exactly `v`.  The quantification over every
fitting shape covers heterogeneous cases such as a sequence of optionals
mixing absent and present entries at the element shape of the optional. -/
theorem roundtrip_decode_encode (v : Value) (s : Shape) (h : conforms s v = true) :
    from_str s (encodeV v) = Except.ok v := by
  have hd := vdepth_le_encode v s h
  have hrt := decodeV_encodeV v s h ((encodeV v).length + shapeNest s + 1) (by omega) []
  rw [List.append_nil] at hrt
  unfold from_str
  rw [hrt]

/-- C1 witness: the record of the ser.rs test round-trips at its record
shape; the sequence holding an absent and a present unsigned optional
round-trips at the sequence-of-optional shape; a one-character text
round-trips at the character shape. -/
theorem roundtrip_decode_encode_witness :
    (conforms (.sStruct [.sU64, .sSeq .sStr])
        (.vStruct [([105, 110, 116], .vU64 1),
          ([115, 101, 113], .vSeq [.vStr [97], .vStr [98]])]) = true ∧
      from_str (.sStruct [.sU64, .sSeq .sStr])
        (encodeV (.vStruct [([105, 110, 116], .vU64 1),
          ([115, 101, 113], .vSeq [.vStr [97], .vStr [98]])])) =
        Except.ok (.vStruct [([105, 110, 116], .vU64 1),
          ([115, 101, 113], .vSeq [.vStr [97], .vStr [98]])]))
  ∧ (conforms (.sSeq (.sOption .sU64)) (.vSeq [.vNone, .vSome (.vU64 5)]) = true ∧
      from_str (.sSeq (.sOption .sU64)) (encodeV (.vSeq [.vNone, .vSome (.vU64 5)])) =
        Except.ok (.vSeq [.vNone, .vSome (.vU64 5)]))
  ∧ (conforms .sChar (.vChar [97]) = true ∧
      from_str .sChar (encodeV (.vChar [97])) = Except.ok (.vChar [97])) :=
  ⟨⟨by decide, roundtrip_decode_encode
      (.vStruct [([105, 110, 116], .vU64 1),
        ([115, 101, 113], .vSeq [.vStr [97], .vStr [98]])])
      (.sStruct [.sU64, .sSeq .sStr]) (by decide)⟩,
   ⟨by decide, roundtrip_decode_encode (.vSeq [.vNone, .vSome (.vU64 5)])
      (.sSeq (.sOption .sU64)) (by decide)⟩,
   ⟨by decide, roundtrip_decode_encode (.vChar [97]) .sChar (by decide)⟩⟩

/-! ## Claims about the encoder and the error type -/

/-- C2: for every text value, the encoder emits a simple string frame (a plus
sign, the exact bytes, CRLF) exactly when the text contains neither a
carriage return nor a line feed byte, in which case it is never
bulk-encoded; otherwise it emits a bulk string frame. -/
theorem text_encoding_branch (s : List Nat) :
    (¬ (13 ∈ s ∨ 10 ∈ s) →
      encodeV (.vStr s) = 43 :: (s ++ [13, 10]) ∧ encodeV (.vStr s) ≠ bulkFrame s)
  ∧ ((13 ∈ s ∨ 10 ∈ s) → encodeV (.vStr s) = bulkFrame s) := by
  constructor
  · intro h
    constructor
    · simp [encodeV, strFrame, h]
    · simp [encodeV, strFrame, h, bulkFrame]
  · intro h
    simp [encodeV, strFrame, h]

/-- C2 witness: the one-byte text `a` is simple-string encoded and not
bulk-encoded. -/
theorem text_encoding_branch_witness :
    encodeV (.vStr [97]) = 43 :: ([97] ++ [13, 10]) ∧
    encodeV (.vStr [97]) ≠ bulkFrame [97] :=
  (text_encoding_branch [97]).1 (by decide)

/-- C3: a sequence or map of unknown length fails with `LenNotKnown` and
leaves the output buffer exactly as it was before the call. -/
theorem seq_map_len_not_known (output : List Nat) :
    serialize_seq output none = (Except.error Error.LenNotKnown, output) ∧
    serialize_map output none = (Except.error Error.LenNotKnown, output) :=
  ⟨rfl, rfl⟩

/-- C4: a record encodes as an array whose count is the field count, each
field a two-element array of the field name and the field value in order; in
particular the record of the test in ser.rs with fields int = 1 and
seq = a, b encodes to the exact expected bytes. -/
theorem struct_encoding (fields : List (List Nat × Value)) :
    encodeV (.vStruct fields) = arrayHeader fields.length ++ encodeFields fields
  ∧ (∀ (name : List Nat) (v : Value) (tl : List (List Nat × Value)),
      encodeFields ((name, v) :: tl) =
        arrayHeader 2 ++ strFrame name ++ encodeV v ++ encodeFields tl)
  ∧ encodeV (.vStruct [([105, 110, 116], .vU64 1),
      ([115, 101, 113], .vSeq [.vStr [97], .vStr [98]])]) =
      [42, 50, 13, 10, 42, 50, 13, 10, 43, 105, 110, 116, 13, 10, 58, 49, 13, 10,
       42, 50, 13, 10, 43, 115, 101, 113, 13, 10, 42, 50, 13, 10, 43, 97, 13, 10,
       43, 98, 13, 10] :=
  ⟨rfl, fun _ _ _ => rfl, rfl⟩

/-- C5: a unit variant encodes as the simple string of its name (for names
free of carriage return and line feed, as Rust identifiers are); tuple and
struct variants encode as a two-element array of the variant name and the
ordinary tuple or record encoding of the payload; the three enum values of
the test in ser.rs produce the exact expected bytes. -/
theorem enum_variant_encoding :
    (∀ variant : List Nat, ¬ (13 ∈ variant ∨ 10 ∈ variant) →
        encodeV (.vUnitVariant variant) = 43 :: (variant ++ [13, 10]))
  ∧ (∀ (variant : List Nat) (l : List Value),
        encodeV (.vTupleVariant variant l) =
          arrayHeader 2 ++ strFrame variant ++ encodeV (.vTuple l))
  ∧ (∀ (variant : List Nat) (fields : List (List Nat × Value)),
        encodeV (.vStructVariant variant fields) =
          arrayHeader 2 ++ strFrame variant ++ encodeV (.vStruct fields))
  ∧ encodeV (.vUnitVariant [85, 110, 105, 116]) = [43, 85, 110, 105, 116, 13, 10]
  ∧ encodeV (.vTupleVariant [84, 117, 112, 108, 101] [.vU64 1, .vU64 2]) =
      [42, 50, 13, 10, 43, 84, 117, 112, 108, 101, 13, 10, 42, 50, 13, 10,
       58, 49, 13, 10, 58, 50, 13, 10]
  ∧ encodeV (.vStructVariant [83, 116, 114, 117, 99, 116] [([97], .vU64 1)]) =
      [42, 50, 13, 10, 43, 83, 116, 114, 117, 99, 116, 13, 10, 42, 49, 13, 10,
       42, 50, 13, 10, 43, 97, 13, 10, 58, 49, 13, 10] := by
  refine ⟨?_, fun _ _ => rfl, fun _ _ => rfl, rfl, rfl, rfl⟩
  intro variant h
  simp [encodeV, strFrame, h]

/-- C5 witness: the unit variant named `Unit` encodes as its name in a simple
string frame. -/
theorem enum_variant_encoding_witness :
    encodeV (.vUnitVariant [85, 110, 105, 116]) = 43 :: ([85, 110, 105, 116] ++ [13, 10]) :=
  enum_variant_encoding.1 [85, 110, 105, 116] (by decide)

/-- C6: an absent optional encodes as exactly the empty-array bytes, a
present optional as the one-element array header followed by the inner
encoding; a present signed integer five gives the exact expected bytes. -/
theorem option_encoding :
    encodeV .vNone = [42, 48, 13, 10]
  ∧ (∀ v : Value, encodeV (.vSome v) = [42, 49, 13, 10] ++ encodeV v)
  ∧ encodeV (.vSome (.vI64 5)) = [42, 49, 13, 10, 58, 53, 13, 10] :=
  ⟨rfl, fun _ => rfl, rfl⟩

/-- C7: the unit value and any unit struct encode as exactly the null bulk
string bytes. -/
theorem unit_encoding :
    encodeV .vUnit = [36, 45, 49, 13, 10] ∧
    encodeV .vUnitStruct = [36, 45, 49, 13, 10] :=
  ⟨rfl, rfl⟩

/-- C8: `to_string` returns the encoded buffer only when the entire buffer is
well-formed UTF-8 and fails with the `Utf8` error otherwise; in particular a
byte sequence containing the byte 255 is frame-encoded fine but `to_string`
fails on it. -/
theorem to_string_utf8_validation :
    (∀ v : Value, validUtf8 (encodeV v) = true → to_string v = Except.ok (encodeV v))
  ∧ (∀ v : Value, validUtf8 (encodeV v) = false → to_string v = Except.error Error.Utf8)
  ∧ to_string (.vBytes [255]) = Except.error Error.Utf8 := by
  refine ⟨?_, ?_, rfl⟩
  · intro v h
    simp [to_string, h]
  · intro v h
    simp [to_string, h]

/-- C8 witness: an unsigned integer passes the validation; a non-UTF-8 byte
sequence is rejected. -/
theorem to_string_utf8_validation_witness :
    to_string (.vU64 3) = Except.ok (encodeV (.vU64 3)) ∧
    to_string (.vBytes [255]) = Except.error Error.Utf8 :=
  ⟨to_string_utf8_validation.1 (.vU64 3) (by decide),
   to_string_utf8_validation.2.2⟩

/-- C9: the standalone map key and value serialization methods return Ok and
leave the buffer unchanged for every key and value; only `serialize_entry`
writes, producing the two-element array header followed by the key and the
value encodings. -/
theorem map_key_value_entry (output : List Nat) (k v : Value) :
    serialize_key output k = (Except.ok (), output)
  ∧ serialize_value output v = (Except.ok (), output)
  ∧ serialize_entry output k v =
      (Except.ok (), output ++ arrayHeader 2 ++ encodeV k ++ encodeV v) :=
  ⟨rfl, rfl, rfl⟩

/-- C10: the Display implementation of the error type produces the string
`other error` for every error value, the text carried by `Msg` included. -/
theorem error_display_constant :
    (∀ e : Error, e.display = "other error")
  ∧ (∀ msg : String, (Error.Msg msg).display = "other error") :=
  ⟨fun e => by cases e <;> rfl, fun _ => rfl⟩

end Resp
